import Mathlib

/-!
Shallow embedding of the Young-Caritas CO2-Berechner web application
(`app/main.py`) together with proofs about its session/state
reconciliation logic.

Numbers: Python integers are modelled as `Int`; CO2 quantities
(which may be fractional) are modelled as `ℚ`.  The in-memory
Item State Table is a list of categories, each holding an ordered
list of items, exactly as `items` in `main.py`.

The MongoDB collaborator (`mongo.mongo.Co2`) and the helper module
(`utilities.utils.AppUtils`) are not part of the repository source;
their operations are modelled from the specification (each such
definition carries a `Modelled from the spec:` doc comment).
-/

set_option autoImplicit false

namespace CO2App

/-- An item of the in-memory Item State Table:
`{name, count, co2, base_co2}` (the `category` key lives on the
enclosing `Category`). -/
structure Item where
  name : String
  count : Int
  co2 : ℚ
  base_co2 : ℚ
  deriving Repr, DecidableEq

/-- A category of the in-memory Item State Table:
`{"category": ..., "items": [...]}`. -/
structure Category where
  category : String
  items : List Item
  deriving Repr, DecidableEq

/-- The per-item mutation performed by the body of the update loop
(`main.py` lines 132-139): `count += 1` on `increment`,
`count = max(0, count - 1)` on `decrement`, otherwise unchanged;
in every case `co2 = count * base_co2` is recomputed. -/
def touch (action : String) (it : Item) : Item :=
  let c : Int :=
    if action = "increment" then it.count + 1
    else if action = "decrement" then max 0 (it.count - 1)
    else it.count
  { it with count := c, co2 := (c : ℚ) * it.base_co2 }

/-- The inner loop of `update_count` (POST `/main`, lines 129-140)
over one category's item list: the first item whose name matches is
mutated and the `break` stops the inner scan there. -/
def updateItemsInCategory (action item_name : String) : List Item → List Item
  | [] => []
  | it :: rest =>
    if it.name = item_name then touch action it :: rest
    else it :: updateItemsInCategory action item_name rest

/-- `update_count` (POST `/main`, lines 128-140) acting on the Item
State Table: the outer `for category in items` loop visits every
category (the `break` exits only the inner loop). -/
def updateCount (action item_name : String) (cats : List Category) : List Category :=
  cats.map fun c => { c with items := updateItemsInCategory action item_name c.items }

/-- The inner loop of the demo-page `update_count` (POST `/`, lines
59-70), translated independently from its own source lines. -/
def updateItemsDemo (action item_name : String) : List Item → List Item
  | [] => []
  | it :: rest =>
    if it.name = item_name then
      let c : Int :=
        if action = "increment" then it.count + 1
        else if action = "decrement" then max 0 (it.count - 1)
        else it.count
      { it with count := c, co2 := (c : ℚ) * it.base_co2 } :: rest
    else it :: updateItemsDemo action item_name rest

/-- The demo-page handler POST `/` (lines 57-73): mutates the shared
Item State Table and redirects to `/`. -/
def update_count_demo (action item_name : String) (cats : List Category) :
    List Category × String :=
  (cats.map fun c => { c with items := updateItemsDemo action item_name c.items }, "/")

/-- The main-page handler POST `/main` (lines 127-143): mutates the
shared Item State Table and redirects to `/main`. -/
def update_count_main (action item_name : String) (cats : List Category) :
    List Category × String :=
  (updateCount action item_name cats, "/main")

/-- `reset` of the locally displayed items (lines 173-176, also lines
79-82): every item's `count` and `co2` are set to 0. -/
def resetLocal (cats : List Category) : List Category :=
  cats.map fun c => { c with items := c.items.map fun it => { it with count := 0, co2 := 0 } }

/-- The grand total CO2 over the in-memory items, as computed by the
sum at lines 97-100 (and 39-42): `sum(item.get('co2', 0) ...)`. -/
def grandTotal (cats : List Category) : ℚ :=
  (cats.map fun c => (c.items.map Item.co2).sum).sum

/-! ## The document store (MongoDB collaborator)

`mongo.mongo.Co2` is not part of the repository source; its state and
operations are modelled from the specification (§3, §6). -/

/-- Modelled from the spec: one persisted item record of the document
store, tagged by its category (the spec keeps per-category lists; we
keep one flat sequence of category-tagged records, so the flattening
step `rearrange_updated_items` becomes the identity). -/
structure PersistedItem where
  category : String
  name : String
  count : Int
  co2 : ℚ
  deriving Repr, DecidableEq

/-- The CO2 equivalents `{car, bus, plane}` returned by
`AppUtils.calculate_equivalents`. -/
structure Equivalents where
  car_km : ℚ
  bus_rides : ℚ
  plane_km : ℚ
  deriving Repr, DecidableEq

/-- Modelled from the spec: `AppUtils.calculate_equivalents` (§4.2) is
a pure function dividing the total by fixed conversion factors; the
exact factors are configuration, fixed here as concrete constants. -/
def calculate_equivalents (total_co2 : ℚ) : Equivalents :=
  ⟨total_co2 / 251, total_co2 / 101, total_co2 / 380⟩

/-- One exchanged-item entry `{name, count, co2}` of the
`exchanged_items` snapshot built during a commit (lines 162-166). -/
structure ExchItem where
  name : String
  count : Int
  co2 : ℚ
  deriving Repr, DecidableEq

/-- A Session Record: `{total_co2, equivalents, exchanged_items}`
(spec §3), the `exchanged_items` dict keyed by category in insertion
order. -/
structure SessionRecord where
  total_co2 : ℚ
  equivalents : Equivalents
  exchanged_items : List (String × List ExchItem)
  deriving Repr, DecidableEq

/-- A Logout Archive Entry:
`{user_name, session_count, sorted_items, cumulative_totals}` (spec §3). -/
structure ArchiveEntry where
  user_name : String
  session_count : Nat
  sorted_items : List PersistedItem
  cumulative_totals : ℚ
  deriving Repr, DecidableEq

/-- Modelled from the spec: the document store's state — persisted item
records, the Session Ledger, and the append-only logout archive. -/
structure DocStore where
  docItems : List PersistedItem
  sessions : List SessionRecord
  archive : List ArchiveEntry
  deriving Repr, DecidableEq

/-- Modelled from the spec: `mongo.update_item(category, name, count, co2)`
(§6) persists the given count/co2 into the item records matching that
category and name. -/
def updateItem (cat nm : String) (cnt : Int) (c : ℚ) (db : DocStore) : DocStore :=
  { db with
    docItems := db.docItems.map fun p =>
      if p.category = cat ∧ p.name = nm then { p with count := cnt, co2 := c } else p }

/-- Modelled from the spec: `mongo.insert_session(total_co2, equivalents,
exchanged_items)` (§6) appends one new Session Record to the ledger. -/
def insertSession (t : ℚ) (eq : Equivalents) (exc : List (String × List ExchItem))
    (db : DocStore) : DocStore :=
  { db with sessions := db.sessions ++ [⟨t, eq, exc⟩] }

/-- Modelled from the spec: `mongo.clear_sessions()` (§6) deletes all
Session Records. -/
def clearSessions (db : DocStore) : DocStore :=
  { db with sessions := [] }

/-- Modelled from the spec: `mongo.reset_counts(...)` (§4.3, §6) resets
the persisted item counts to 0. -/
def resetCounts (db : DocStore) : DocStore :=
  { db with docItems := db.docItems.map fun p => { p with count := 0 } }

/-- Modelled from the spec: `mongo.log_out(user_name, sessions,
sorted_items, total)` (§6) appends one Logout Archive Entry. -/
def logOut (u : String) (n : Nat) (sorted : List PersistedItem) (t : ℚ)
    (db : DocStore) : DocStore :=
  { db with archive := db.archive ++ [⟨u, n, sorted, t⟩] }

/-- Modelled from the spec: `AppUtils.calculate_total` folds the Session
Records into cumulative totals and a session count (§3, §4.3). -/
def calculate_total (sessions : List SessionRecord) : ℚ × Nat :=
  ((sessions.map SessionRecord.total_co2).sum, sessions.length)

/-- Modelled from the spec: `AppUtils.rearrange_updated_items` flattens
the per-category persisted lists into one sequence; the store model
already keeps one flat sequence, so this is the identity. -/
def rearrange_updated_items (l : List PersistedItem) : List PersistedItem := l

/-- Inserts a persisted item into a count-descending list, after every
element with a strictly larger count and before every element with an
equal or smaller one; since the element being inserted precedes the
list's elements in the input, equal counts keep their input order
(stability). -/
def insertDesc (p : PersistedItem) : List PersistedItem → List PersistedItem
  | [] => [p]
  | q :: rest => if p.count < q.count then q :: insertDesc p rest else p :: q :: rest

/-- Modelled from the spec: `AppUtils.sort_updated_items` sorts the
items by count in descending order with a stable sort (§4.3). -/
def sort_updated_items : List PersistedItem → List PersistedItem
  | [] => []
  | p :: rest => insertDesc p (sort_updated_items rest)

/-! ## Application state and the route handlers -/

/-- The whole mutable state the handlers act on: the in-memory Item
State Table `items`, the module-level `total_co2` variable (declared
`global` at line 94 and assigned only by the GET `/main` handler;
`none` while it has never been assigned, in which case reading it
raises `NameError`), and the document store. -/
structure AppState where
  items : List Category
  totalCo2Global : Option ℚ
  store : DocStore
  deriving Repr, DecidableEq

/-- GET `/main` (`main`, lines 87-124): assigns the module-level
`total_co2` from the current in-memory items (lines 94-100).  All its
other reads are display-only. -/
def getMain (s : AppState) : AppState :=
  { s with totalCo2Global := some (grandTotal s.items) }

/-- POST `/main` as a transition of the whole state: only the
in-memory Item State Table changes. -/
def postMain (action item_name : String) (s : AppState) : AppState :=
  { s with items := updateCount action item_name s.items }

/-- The eligibility test of the commit loop (line 155):
`item.get('count', 0) > 0 or item.get('co2', 0) > 0`. -/
def eligible (it : Item) : Bool :=
  decide (0 < it.count) || decide ((0 : ℚ) < it.co2)

/-- The (category-name, item) pairs in the order the nested commit
loop (lines 153-154) visits them. -/
def pairs (cats : List Category) : List (String × Item) :=
  (cats.map fun c => c.items.map fun it => (c.category, it)).flatten

/-- The pairs for which the commit loop actually performs a document
store write (line 155 guard). -/
def eligPairs (cats : List Category) : List (String × Item) :=
  (pairs cats).filter fun p => eligible p.2

/-- `exc_items[cat].append(entry)` preceded by
`if cat not in exc_items: exc_items[cat] = []` (lines 159-166), on an
insertion-ordered dict. -/
def dictAppend (k : String) (v : ExchItem) :
    List (String × List ExchItem) → List (String × List ExchItem)
  | [] => [(k, [v])]
  | (k', vs) :: rest =>
    if k' = k then (k', vs ++ [v]) :: rest else (k', vs) :: dictAppend k v rest

/-- The errors a commit can raise: a document-store write failure
(raised by the `idx`-th store write of the request), or the
`NameError` from reading the never-assigned global `total_co2`. -/
inductive CommitError where
  | storeFailure (idx : Nat)
  | nameError
  deriving Repr, DecidableEq

/-- The per-item half of the commit (lines 153-166), with an explicit
failure oracle: `failAt = some k` makes the `k`-th document-store
write of this request raise.  Returns the built `exc_items` dict and
the next write index on success; the store state is returned in either
case, holding exactly the writes performed before any failure. -/
def commitWrites (failAt : Option Nat) :
    List (String × Item) → DocStore → List (String × List ExchItem) → Nat →
    Except CommitError (List (String × List ExchItem) × Nat) × DocStore
  | [], db, exc, n => (.ok (exc, n), db)
  | (cat, it) :: rest, db, exc, n =>
    if eligible it then
      if failAt = some n then (.error (.storeFailure n), db)
      else
        commitWrites failAt rest (updateItem cat it.name it.count it.co2 db)
          (dictAppend cat ⟨it.name, it.count, it.co2⟩ exc) (n + 1)
    else commitWrites failAt rest db exc n

/-- The commit handler `renew` (POST `/main/reset`, lines 146-182):
persist every eligible item's count/co2, build `exc_items`; then, if
the module-level `total_co2` is positive, insert one Session Record
(reading an unassigned global raises `NameError` at line 168); then
reset the in-memory items.  On any exception the error is logged and
re-raised (lines 178-180) and the reset is skipped; the store keeps
the writes already performed. -/
def renew (failAt : Option Nat) (s : AppState) : Except CommitError Unit × AppState :=
  match commitWrites failAt (pairs s.items) s.store [] 0 with
  | (.error e, db) => (.error e, { s with store := db })
  | (.ok (exc, n), db) =>
    match s.totalCo2Global with
    | none => (.error .nameError, { s with store := db })
    | some t =>
      if 0 < t then
        if failAt = some n then (.error (.storeFailure n), { s with store := db })
        else
          (.ok (), { s with
            items := resetLocal s.items,
            store := insertSession t (calculate_equivalents t) exc db })
      else (.ok (), { s with items := resetLocal s.items, store := db })

/-- The logout handler (POST `/main/logout`, lines 185-205): fold the
Session Ledger into totals and a count; when the count is positive,
write one Logout Archive Entry from the sorted persisted items, reset
the persisted counts and clear the ledger; otherwise do nothing
(cookie handling is outside the modelled state). -/
def logout (user_name : String) (s : AppState) : AppState :=
  if 0 < (calculate_total s.store.sessions).2 then
    { s with store :=
        clearSessions (resetCounts (logOut user_name
          (calculate_total s.store.sessions).2
          (sort_updated_items (rearrange_updated_items s.store.docItems))
          (calculate_total s.store.sessions).1 s.store)) }
  else s

/-! ## Derived notions used by the statements -/

/-- The data-model invariant on one item (§3): `co2 == count * base_co2`. -/
@[reducible] def itemInv (it : Item) : Prop := it.co2 = (it.count : ℚ) * it.base_co2

/-- The data-model invariant over the whole Item State Table. -/
@[reducible] def stateInv (cats : List Category) : Prop :=
  ∀ c ∈ cats, ∀ it ∈ c.items, itemInv it

/-- The data-model range condition on counts (§3: `count` is a
non-negative integer). -/
@[reducible] def countsNonneg (cats : List Category) : Prop :=
  ∀ c ∈ cats, ∀ it ∈ c.items, 0 ≤ it.count

/-- The sequence of document-store item writes described by a list of
(category, item) pairs, applied in order. -/
def applyWrites (l : List (String × Item)) (db : DocStore) : DocStore :=
  l.foldl (fun db p => updateItem p.1 p.2.name p.2.count p.2.co2 db) db

/-- The `exc_items` dict that the commit loop builds from the eligible
entries of `l`, starting from `exc`. -/
def excOf (l : List (String × Item)) (exc : List (String × List ExchItem)) :
    List (String × List ExchItem) :=
  (l.filter fun p => eligible p.2).foldl
    (fun e p => dictAppend p.1 ⟨p.2.name, p.2.count, p.2.co2⟩ e) exc

/-! ## Concrete states used by counterexamples and witnesses -/

/-- A one-item catalog as seeded at startup. -/
def bootItems : List Category := [⟨"Kitchen", [⟨"Cup", 0, 0, 5⟩]⟩]

/-- The state right after startup: items seeded in memory and in the
document store, the module-level `total_co2` never assigned. -/
def bootState : AppState :=
  { items := bootItems,
    totalCo2Global := none,
    store := ⟨[⟨"Kitchen", "Cup", 0, 0⟩], [], []⟩ }

/-- A state with one increment performed but no GET `/main` ever run. -/
def preGetState : AppState := postMain "increment" "Cup" bootState

/-- After startup: one GET `/main` (rendering a zero total), then one
increment of `Cup`.  The in-memory grand total is now 5 while the
module-level `total_co2` still holds 0. -/
def staleState : AppState := postMain "increment" "Cup" (getMain bootState)

/-- `staleState` after one more GET `/main`, so the module-level
`total_co2` holds the current grand total 5. -/
def freshState : AppState := getMain staleState

/-- `freshState` after a successful commit: one Session Record in the
ledger, in-memory items reset. -/
def committedState : AppState := (renew none freshState).2

/-- Two categories holding items with the same name. -/
def dupCats : List Category :=
  [⟨"A", [⟨"Cup", 0, 0, 1⟩]⟩, ⟨"B", [⟨"Cup", 0, 0, 1⟩]⟩]

/-- A mixed state: one item at count 0 next to one at count 3. -/
def mixedCats : List Category :=
  [⟨"Kitchen", [⟨"Cup", 0, 0, 5⟩, ⟨"Plate", 3, 15, 5⟩]⟩]

/-! ## Basic lemmas about the update loop -/

theorem touch_increment (it : Item) :
    touch "increment" it =
      { it with count := it.count + 1, co2 := ((it.count + 1 : ℤ) : ℚ) * it.base_co2 } := rfl

theorem touch_decrement (it : Item) :
    touch "decrement" it =
      { it with count := max 0 (it.count - 1),
                co2 := ((max 0 (it.count - 1) : ℤ) : ℚ) * it.base_co2 } := rfl

theorem touch_name (a : String) (it : Item) : (touch a it).name = it.name := rfl

theorem touch_itemInv (a : String) (it : Item) : itemInv (touch a it) := rfl

theorem updateItemsDemo_eq (a nm : String) (l : List Item) :
    updateItemsDemo a nm l = updateItemsInCategory a nm l := by
  induction l with
  | nil => rfl
  | cons it rest ih =>
    simp only [updateItemsDemo, updateItemsInCategory, touch]
    by_cases h : it.name = nm <;> simp [h, ih]

theorem updateItems_no_match (a nm : String) (l : List Item)
    (h : ∀ it ∈ l, it.name ≠ nm) : updateItemsInCategory a nm l = l := by
  induction l with
  | nil => rfl
  | cons it rest ih =>
    simp only [updateItemsInCategory]
    rw [if_neg (h it (List.mem_cons_self it rest)),
      ih fun x hx => h x (List.mem_cons_of_mem _ hx)]

theorem updateItems_first_match (a nm : String) (pre : List Item) (it : Item)
    (post : List Item) (hpre : ∀ x ∈ pre, x.name ≠ nm) (hit : it.name = nm) :
    updateItemsInCategory a nm (pre ++ it :: post) = pre ++ touch a it :: post := by
  induction pre with
  | nil => simp [updateItemsInCategory, hit]
  | cons x rest ih =>
    simp only [List.cons_append, updateItemsInCategory]
    rw [if_neg (hpre x (List.mem_cons_self x rest))]
    simp only [List.append_eq]
    rw [ih fun y hy => hpre y (List.mem_cons_of_mem _ hy)]

theorem updateItems_mem (a nm : String) (l : List Item) (it' : Item)
    (h : it' ∈ updateItemsInCategory a nm l) :
    ∃ it ∈ l, it' = it ∨ it' = touch a it := by
  induction l with
  | nil => cases h
  | cons x rest ih =>
    simp only [updateItemsInCategory] at h
    by_cases hx : x.name = nm
    · rw [if_pos hx] at h
      rcases List.mem_cons.1 h with h1 | h1
      · exact ⟨x, List.mem_cons_self x rest, Or.inr h1⟩
      · exact ⟨it', List.mem_cons_of_mem _ h1, Or.inl rfl⟩
    · rw [if_neg hx] at h
      rcases List.mem_cons.1 h with h1 | h1
      · exact ⟨x, List.mem_cons_self x rest, Or.inl h1⟩
      · rcases ih h1 with ⟨it, hm, hor⟩
        exact ⟨it, List.mem_cons_of_mem _ hm, hor⟩

/-- The update loop relates result and input pointwise: each position
holds either the original item or its touched version. -/
theorem updateItems_pointwise (a nm : String) (l : List Item) :
    List.Forall₂ (fun it' it => it' = it ∨ it' = touch a it)
      (updateItemsInCategory a nm l) l := by
  induction l with
  | nil => exact List.Forall₂.nil
  | cons x rest ih =>
    simp only [updateItemsInCategory]
    by_cases hx : x.name = nm
    · rw [if_pos hx]
      exact List.Forall₂.cons (Or.inr rfl) (List.forall₂_same.2 fun y _ => Or.inl rfl)
    · rw [if_neg hx]
      exact List.Forall₂.cons (Or.inl rfl) ih

theorem touch_dec_inc (it : Item) (hc : 0 ≤ it.count) (hinv : itemInv it) :
    touch "decrement" (touch "increment" it) = it := by
  rcases it with ⟨nm, cnt, co, b⟩
  simp only [itemInv] at hinv
  have hc' : (0 : ℤ) ≤ cnt := hc
  rw [touch_increment, touch_decrement]
  have hcnt : max 0 (cnt + 1 - 1) = cnt := by omega
  simp_all

theorem updateItems_dec_inc (nm : String) (l : List Item)
    (hc : ∀ it ∈ l, 0 ≤ it.count) (hinv : ∀ it ∈ l, itemInv it) :
    updateItemsInCategory "decrement" nm (updateItemsInCategory "increment" nm l) = l := by
  induction l with
  | nil => rfl
  | cons x rest ih =>
    by_cases hx : x.name = nm
    · rw [updateItemsInCategory, if_pos hx]
      have hn : (touch "increment" x).name = nm := by rw [touch_name]; exact hx
      rw [updateItemsInCategory, if_pos hn,
        touch_dec_inc x (hc x (List.mem_cons_self x rest)) (hinv x (List.mem_cons_self x rest))]
    · rw [updateItemsInCategory, if_neg hx, updateItemsInCategory, if_neg hx,
        ih (fun y hy => hc y (List.mem_cons_of_mem _ hy))
          (fun y hy => hinv y (List.mem_cons_of_mem _ hy))]

theorem stateInv_updateCount (a nm : String) (cats : List Category)
    (h : stateInv cats) : stateInv (updateCount a nm cats) := by
  intro c' hc' it' hit'
  simp only [updateCount, List.mem_map] at hc'
  rcases hc' with ⟨c, hc, rfl⟩
  rcases updateItems_mem a nm c.items it' hit' with ⟨it, hm, heq | heq⟩
  · rw [heq]; exact h c hc it hm
  · rw [heq]; exact touch_itemInv a it

theorem stateInv_resetLocal (cats : List Category) : stateInv (resetLocal cats) := by
  intro c' hc' it' hit'
  simp only [resetLocal, List.mem_map] at hc'
  rcases hc' with ⟨c, hc, rfl⟩
  simp only [List.mem_map] at hit'
  rcases hit' with ⟨it, hit, rfl⟩
  simp [itemInv]

/-! ## Lemmas about the commit loop -/

theorem commitWrites_none (l : List (String × Item)) :
    ∀ (db : DocStore) (exc : List (String × List ExchItem)) (n : Nat),
    commitWrites none l db exc n =
      (.ok (excOf l exc, n + (l.filter fun p => eligible p.2).length),
        applyWrites (l.filter fun p => eligible p.2) db) := by
  induction l with
  | nil => intro db exc n; simp [commitWrites, excOf, applyWrites]
  | cons p rest ih =>
    intro db exc n
    rcases p with ⟨cat, it⟩
    by_cases he : eligible it
    · simp only [commitWrites]
      rw [if_pos he, if_neg (by simp), ih]
      simp [excOf, applyWrites, List.filter_cons, he, Nat.add_assoc, Nat.add_comm 1]
    · simp only [commitWrites]
      rw [if_neg he, ih]
      simp [excOf, applyWrites, List.filter_cons, he]

theorem commitWrites_fail (k : Nat) (l : List (String × Item)) :
    ∀ (db : DocStore) (exc : List (String × List ExchItem)) (n : Nat),
    n ≤ k → k - n < (l.filter fun p => eligible p.2).length →
    commitWrites (some k) l db exc n =
      (.error (.storeFailure k),
        applyWrites ((l.filter fun p => eligible p.2).take (k - n)) db) := by
  induction l with
  | nil => intro db exc n _ hlt; simp at hlt
  | cons p rest ih =>
    intro db exc n hle hlt
    rcases p with ⟨cat, it⟩
    by_cases he : eligible it
    · simp only [commitWrites]
      rw [if_pos he]
      by_cases hk : k = n
      · subst hk
        rw [if_pos rfl]
        simp [applyWrites]
      · rw [if_neg (by simpa using hk)]
        have h1 : n + 1 ≤ k := by omega
        have h2 : k - (n + 1) < (rest.filter fun p => eligible p.2).length := by
          simp only [List.filter_cons, he, if_pos] at hlt
          simp only [List.length_cons] at hlt
          omega
        rw [ih _ _ _ h1 h2]
        simp only [List.filter_cons, he]
        have htake : ((⟨cat, it⟩ :: rest.filter fun p => eligible p.2).take (k - n))
            = ⟨cat, it⟩ :: ((rest.filter fun p => eligible p.2).take (k - (n + 1))) := by
          have : k - n = (k - (n + 1)) + 1 := by omega
          rw [this, List.take_succ_cons]
        simp only [if_pos]
        rw [htake]
        simp [applyWrites]
    · simp only [commitWrites]
      rw [if_neg he]
      have h2 : k - n < (rest.filter fun p => eligible p.2).length := by
        simpa [List.filter_cons, he] using hlt
      rw [ih _ _ _ hle h2]
      simp [List.filter_cons, he]

/-- The in-memory items after a commit: unchanged on any exception,
reset to zero on success. -/
theorem renew_items_cases (failAt : Option Nat) (s : AppState) :
    (renew failAt s).2.items = s.items ∨ (renew failAt s).2.items = resetLocal s.items := by
  rw [renew]
  rcases hcw : commitWrites failAt (pairs s.items) s.store [] 0 with ⟨res, db⟩
  rcases res with e | ⟨exc, n⟩
  · left; rfl
  · rcases hg : s.totalCo2Global with _ | t
    · left; rfl
    · dsimp only
      by_cases ht : 0 < t
      · rw [if_pos ht]
        by_cases hf : failAt = some n
        · rw [if_pos hf]; left; rfl
        · rw [if_neg hf]; right; rfl
      · rw [if_neg ht]; right; rfl

theorem commitWrites_late (k : Nat) (l : List (String × Item)) :
    ∀ (db : DocStore) (exc : List (String × List ExchItem)) (n : Nat),
    n + (l.filter fun p => eligible p.2).length ≤ k →
    commitWrites (some k) l db exc n =
      (.ok (excOf l exc, n + (l.filter fun p => eligible p.2).length),
        applyWrites (l.filter fun p => eligible p.2) db) := by
  induction l with
  | nil => intro db exc n _; simp [commitWrites, excOf, applyWrites]
  | cons p rest ih =>
    intro db exc n hle
    rcases p with ⟨cat, it⟩
    by_cases he : eligible it
    · have hlen : n + 1 + (rest.filter fun p => eligible p.2).length ≤ k := by
        simp only [List.filter_cons, he, if_pos, List.length_cons] at hle
        omega
      have hkn : ¬ ((some k : Option Nat) = some n) := by
        simp only [Option.some.injEq]
        omega
      simp only [commitWrites]
      rw [if_pos he, if_neg hkn, ih _ _ _ hlen]
      simp [excOf, applyWrites, List.filter_cons, he, Nat.add_assoc, Nat.add_comm 1]
    · have hlen : n + (rest.filter fun p => eligible p.2).length ≤ k := by
        simpa [List.filter_cons, he] using hle
      simp only [commitWrites]
      rw [if_neg he, ih _ _ _ hlen]
      simp [excOf, applyWrites, List.filter_cons, he]

theorem updateItem_sessions (cat nm : String) (cnt : Int) (c : ℚ) (db : DocStore) :
    (updateItem cat nm cnt c db).sessions = db.sessions := rfl

theorem applyWrites_sessions (l : List (String × Item)) :
    ∀ db : DocStore, (applyWrites l db).sessions = db.sessions := by
  induction l with
  | nil => intro db; rfl
  | cons p rest ih =>
    intro db
    rw [applyWrites, List.foldl_cons]
    exact ih (updateItem p.1 p.2.name p.2.count p.2.co2 db)

theorem applyWrites_archive (l : List (String × Item)) :
    ∀ db : DocStore, (applyWrites l db).archive = db.archive := by
  induction l with
  | nil => intro db; rfl
  | cons p rest ih =>
    intro db
    rw [applyWrites, List.foldl_cons]
    exact ih (updateItem p.1 p.2.name p.2.count p.2.co2 db)

/-! ## Behaviour of the commit handler, by case -/

/-- Commit with no store failure and an unassigned global `total_co2`:
`NameError` after all per-item writes, no reset. -/
theorem renew_none_nameError (s : AppState) (hg : s.totalCo2Global = none) :
    renew none s = (.error CommitError.nameError,
      { s with store := applyWrites (eligPairs s.items) s.store }) := by
  rw [renew, commitWrites_none, hg]
  rfl

/-- Commit with no store failure and a positive global `total_co2`:
all per-item writes, one new Session Record, in-memory reset. -/
theorem renew_none_pos (s : AppState) (t : ℚ) (hg : s.totalCo2Global = some t)
    (ht : 0 < t) :
    renew none s = (.ok (), { s with
      items := resetLocal s.items,
      store := insertSession t (calculate_equivalents t) (excOf (pairs s.items) [])
        (applyWrites (eligPairs s.items) s.store) }) := by
  rw [renew, commitWrites_none, hg]
  dsimp only
  rw [if_pos ht, if_neg (by simp)]
  rfl

/-- Commit with no store failure and a non-positive global `total_co2`:
all per-item writes, no Session Record, in-memory reset. -/
theorem renew_none_nonpos (s : AppState) (t : ℚ) (hg : s.totalCo2Global = some t)
    (ht : ¬ 0 < t) :
    renew none s = (.ok (), { s with
      items := resetLocal s.items,
      store := applyWrites (eligPairs s.items) s.store }) := by
  rw [renew, commitWrites_none, hg]
  dsimp only
  rw [if_neg ht]
  rfl

/-- A failing per-item store write: the error propagates, exactly the
writes before the failure are applied, no reset. -/
theorem renew_fail (s : AppState) (k : Nat) (hk : k < (eligPairs s.items).length) :
    renew (some k) s = (.error (.storeFailure k),
      { s with store := applyWrites ((eligPairs s.items).take k) s.store }) := by
  have h := commitWrites_fail k (pairs s.items) s.store [] 0 (Nat.zero_le k)
    (by simpa [eligPairs] using hk)
  rw [renew, h]
  simp [eligPairs]

/-- A failing `insert_session` write (the write following the per-item
loop, with a positive global total): the error propagates, all
per-item writes stand, no session is recorded, no reset. -/
theorem renew_session_fail (s : AppState) (t : ℚ) (hg : s.totalCo2Global = some t)
    (ht : 0 < t) :
    renew (some (eligPairs s.items).length) s =
      (.error (.storeFailure (eligPairs s.items).length),
        { s with store := applyWrites (eligPairs s.items) s.store }) := by
  have h := commitWrites_late (eligPairs s.items).length (pairs s.items) s.store [] 0
    (by simp [eligPairs])
  rw [renew, h, hg]
  dsimp only
  rw [if_pos ht, if_pos (by simp [eligPairs])]
  simp [eligPairs]

/-! ## The claims -/

/-- C3: after each mutating operation on the Item State Table —
`update_count` (increment/decrement), the local reset, and the commit's
final reset — every item satisfies `co2 == count * base_co2`, assuming
the invariant held before the operation. -/
theorem C3_co2_invariant_preserved (cats : List Category) (h : stateInv cats) :
    (∀ a nm, stateInv (updateCount a nm cats)) ∧
    stateInv (resetLocal cats) ∧
    (∀ (failAt : Option Nat) (s : AppState), s.items = cats →
      stateInv ((renew failAt s).2.items)) := by
  refine ⟨fun a nm => stateInv_updateCount a nm cats h, stateInv_resetLocal cats, ?_⟩
  intro failAt s hs
  rcases renew_items_cases failAt s with h1 | h1
  · rw [h1, hs]; exact h
  · rw [h1, hs]; exact stateInv_resetLocal cats

theorem C3_witness :
    stateInv bootItems ∧
    ((∀ a nm, stateInv (updateCount a nm bootItems)) ∧
     stateInv (resetLocal bootItems) ∧
     (∀ (failAt : Option Nat) (s : AppState), s.items = bootItems →
       stateInv ((renew failAt s).2.items))) :=
  ⟨by with_unfolding_all decide, C3_co2_invariant_preserved bootItems (by with_unfolding_all decide)⟩

/-- C6: per item — item by item, in any state — applying decrement
never drives a non-negative count negative, and an item whose count is
0 keeps count 0, whatever the counts of the other items are. -/
theorem C6_decrement_never_negative (cats : List Category) (nm : String) :
    List.Forall₂ (fun c' c => List.Forall₂ (fun it' it =>
        (0 ≤ it.count → 0 ≤ it'.count) ∧ (it.count = 0 → it'.count = 0))
      c'.items c.items) (updateCount "decrement" nm cats) cats := by
  induction cats with
  | nil => exact List.Forall₂.nil
  | cons c cs ih =>
    refine List.Forall₂.cons ?_ ih
    refine (updateItems_pointwise "decrement" nm c.items).imp ?_
    intro it' it hor
    rcases hor with heq | heq
    · rw [heq]
      exact ⟨fun h => h, fun h => h⟩
    · rw [heq, touch_decrement]
      constructor
      · intro _
        exact le_max_left 0 _
      · intro h0
        show max 0 (it.count - 1) = 0
        rw [h0]
        rfl

theorem C6_witness :
    List.Forall₂ (fun c' c => List.Forall₂ (fun it' it =>
        (0 ≤ it.count → 0 ≤ it'.count) ∧ (it.count = 0 → it'.count = 0))
      c'.items c.items) (updateCount "decrement" "Cup" mixedCats) mixedCats ∧
    (updateCount "decrement" "Cup" mixedCats).map (fun c => c.items.map Item.count) =
      [[0, 3]] :=
  ⟨C6_decrement_never_negative mixedCats "Cup", by with_unfolding_all rfl⟩

/-- Helper for C7: increment followed by decrement of the same name is
the identity on any well-formed Item State Table. -/
theorem updateCount_dec_inc (nm : String) (cats : List Category)
    (hc : countsNonneg cats) (hinv : stateInv cats) :
    updateCount "decrement" nm (updateCount "increment" nm cats) = cats := by
  induction cats with
  | nil => rfl
  | cons c cs ih =>
    have h1 : updateItemsInCategory "decrement" nm
        (updateItemsInCategory "increment" nm c.items) = c.items :=
      updateItems_dec_inc nm c.items (hc c (List.mem_cons_self c cs))
        (hinv c (List.mem_cons_self c cs))
    simp only [updateCount, List.map_cons]
    congr 1
    · show Category.mk c.category (updateItemsInCategory "decrement" nm
        (updateItemsInCategory "increment" nm c.items)) = c
      rw [h1]
    · exact ih (fun x hx => hc x (List.mem_cons_of_mem _ hx))
        (fun x hx => hinv x (List.mem_cons_of_mem _ hx))

/-- C7: for a name present in a well-formed Item State Table (counts
non-negative, co2 invariant holding), increment then decrement of that
name restores every item's `(count, co2)` — the touched item returns to
its pre-increment value and all other items are unchanged. -/
theorem C7_increment_decrement_roundtrip (cats : List Category) (nm : String)
    (_hpresent : ∃ c ∈ cats, ∃ it ∈ c.items, it.name = nm)
    (hc : countsNonneg cats) (hinv : stateInv cats) :
    updateCount "decrement" nm (updateCount "increment" nm cats) = cats :=
  updateCount_dec_inc nm cats hc hinv

theorem C7_witness :
    (∃ c ∈ bootItems, ∃ it ∈ c.items, it.name = "Cup") ∧
    countsNonneg bootItems ∧ stateInv bootItems ∧
    updateCount "decrement" "Cup" (updateCount "increment" "Cup" bootItems) = bootItems :=
  ⟨by with_unfolding_all decide, by with_unfolding_all decide, by with_unfolding_all decide,
    C7_increment_decrement_roundtrip bootItems "Cup" (by with_unfolding_all decide) (by with_unfolding_all decide) (by with_unfolding_all decide)⟩

/-- C8 counterexample: with the same item name in two categories, an
increment mutates the matching item of each category — the later item
with the same name is not left untouched (the `break` at line 140 exits
only the inner loop). -/
theorem C8_counterexample :
    dupCats.map (fun c => c.items.map Item.count) = [[0], [0]] ∧
    (updateCount "increment" "Cup" dupCats).map (fun c => c.items.map Item.count) =
      [[1], [1]] := by
  constructor <;> rfl

/-- C8 amended: the lookup scans categories then items in order; within
each category only the first matching item is mutated and the items
after it in that category are untouched, but every category is scanned,
so the first matching item of each category is mutated; if no item
matches, the operation is a silent no-op. -/
theorem C8_first_match_per_category (a nm : String) (cats : List Category) :
    ((∀ c ∈ cats, ∀ it ∈ c.items, it.name ≠ nm) → updateCount a nm cats = cats) ∧
    List.Forall₂ (fun c' c => c'.category = c.category ∧
        ((∀ it ∈ c.items, it.name ≠ nm) → c'.items = c.items) ∧
        (∀ pre it post, c.items = pre ++ it :: post → (∀ x ∈ pre, x.name ≠ nm) →
          it.name = nm → c'.items = pre ++ touch a it :: post))
      (updateCount a nm cats) cats := by
  constructor
  · intro h
    simp only [updateCount]
    conv_rhs => rw [← List.map_id cats]
    apply List.map_congr_left
    intro c hc
    show ({ c with items := updateItemsInCategory a nm c.items } : Category) = c
    rw [updateItems_no_match a nm c.items (h c hc)]
  · induction cats with
    | nil => exact List.Forall₂.nil
    | cons c cs ih =>
      refine List.Forall₂.cons ⟨rfl, ?_, ?_⟩ ih
      · intro h
        show updateItemsInCategory a nm c.items = c.items
        exact updateItems_no_match a nm c.items h
      · intro pre it post hsplit hpre hit
        show updateItemsInCategory a nm c.items = pre ++ touch a it :: post
        rw [hsplit]
        exact updateItems_first_match a nm pre it post hpre hit

theorem C8_amended_witness :
    ((∀ c ∈ dupCats, ∀ it ∈ c.items, it.name ≠ "Cup") →
      updateCount "increment" "Cup" dupCats = dupCats) ∧
    List.Forall₂ (fun c' c => c'.category = c.category ∧
        ((∀ it ∈ c.items, it.name ≠ "Cup") → c'.items = c.items) ∧
        (∀ pre it post, c.items = pre ++ it :: post → (∀ x ∈ pre, x.name ≠ "Cup") →
          it.name = "Cup" → c'.items = pre ++ touch "increment" it :: post))
      (updateCount "increment" "Cup" dupCats) dupCats :=
  C8_first_match_per_category "increment" "Cup" dupCats

/-- C10: the demo-page handler POST `/` and the main-page handler
POST `/main` perform the same transformation of the shared in-memory
Item State Table on every input and differ only in the redirect
target. -/
theorem C10_demo_main_same_transformation (a nm : String) (cats : List Category) :
    (update_count_demo a nm cats).1 = (update_count_main a nm cats).1 ∧
    (update_count_demo a nm cats).2 = "/" ∧
    (update_count_main a nm cats).2 = "/main" := by
  refine ⟨?_, rfl, rfl⟩
  simp only [update_count_demo, update_count_main, updateCount]
  apply List.map_congr_left
  intro c _
  rw [updateItemsDemo_eq]

/-- C1 counterexample: at `staleState` — reached by GET `/main` (which
stored total 0) followed by one increment — the in-memory grand total
is strictly positive at commit time, yet the commit succeeds without
writing any Session Record, because line 168 tests the stale
module-level `total_co2`, not the current grand total. -/
theorem C1_counterexample :
    0 < grandTotal staleState.items ∧
    (renew none staleState).1 = Except.ok () ∧
    (renew none staleState).2.store.sessions = staleState.store.sessions := by
  refine ⟨by with_unfolding_all decide, ?_, ?_⟩
  · with_unfolding_all rfl
  · with_unfolding_all rfl

/-- C1 amended: a commit writes exactly one new Session Record if and
only if the module-level `total_co2` — the grand total as of the most
recent GET `/main`, not the grand total at the time of the commit — is
strictly positive; otherwise the Session Ledger is unchanged. -/
theorem C1_session_written_iff_stale_total_positive (s : AppState) (t : ℚ)
    (hg : s.totalCo2Global = some t) :
    (renew none s).1 = Except.ok () ∧
    (0 < t → (renew none s).2.store.sessions =
      s.store.sessions ++ [⟨t, calculate_equivalents t, excOf (pairs s.items) []⟩]) ∧
    (¬ 0 < t → (renew none s).2.store.sessions = s.store.sessions) := by
  by_cases ht : 0 < t
  · rw [renew_none_pos s t hg ht]
    refine ⟨rfl, fun _ => ?_, fun h => absurd ht h⟩
    show (insertSession t (calculate_equivalents t) (excOf (pairs s.items) [])
      (applyWrites (eligPairs s.items) s.store)).sessions = _
    simp only [insertSession]
    rw [applyWrites_sessions]
  · rw [renew_none_nonpos s t hg ht]
    refine ⟨rfl, fun h => absurd h ht, fun _ => ?_⟩
    show (applyWrites (eligPairs s.items) s.store).sessions = s.store.sessions
    exact applyWrites_sessions _ _

theorem C1_amended_witness :
    freshState.totalCo2Global = some 5 ∧
    ((renew none freshState).1 = Except.ok () ∧
     (0 < (5 : ℚ) → (renew none freshState).2.store.sessions =
       freshState.store.sessions ++
         [⟨5, calculate_equivalents 5, excOf (pairs freshState.items) []⟩]) ∧
     (¬ 0 < (5 : ℚ) → (renew none freshState).2.store.sessions =
       freshState.store.sessions)) :=
  ⟨by with_unfolding_all rfl,
   C1_session_written_iff_stale_total_positive freshState 5 (by with_unfolding_all rfl)⟩

/-- C2: when the `k`-th document-store write of a commit raises — a
per-item `update_item` (first conjunct) or the `insert_session` that
follows the loop (second conjunct) — the error is re-raised to the
caller, exactly the writes before the failure remain applied (no
rollback), and the in-memory items and global keep their values: the
reset does not occur. -/
theorem C2_commit_failure_no_rollback_no_reset (s : AppState) (k : Nat) :
    (k < (eligPairs s.items).length →
      renew (some k) s = (.error (.storeFailure k),
        { s with store := applyWrites ((eligPairs s.items).take k) s.store })) ∧
    (∀ t, s.totalCo2Global = some t → 0 < t → k = (eligPairs s.items).length →
      renew (some k) s = (.error (.storeFailure k),
        { s with store := applyWrites (eligPairs s.items) s.store })) := by
  constructor
  · exact fun hk => renew_fail s k hk
  · intro t hg ht hk
    subst hk
    exact renew_session_fail s t hg ht

theorem C2_witness :
    0 < (eligPairs freshState.items).length ∧
    renew (some 0) freshState = (.error (.storeFailure 0),
      { freshState with
        store := applyWrites ((eligPairs freshState.items).take 0) freshState.store }) :=
  ⟨by with_unfolding_all decide,
   (C2_commit_failure_no_rollback_no_reset freshState 0).1 (by with_unfolding_all decide)⟩

/-- C4: logging out with a non-empty Session Ledger empties the ledger,
appends exactly one Logout Archive Entry whose cumulative totals are
the sum over the records and whose session count is their number, and
resets every persisted item count to 0. -/
theorem C4_logout_archives_and_clears (s : AppState) (u : String)
    (h : 0 < s.store.sessions.length) :
    (logout u s).store.sessions = [] ∧
    (logout u s).store.archive = s.store.archive ++
      [⟨u, s.store.sessions.length,
        sort_updated_items (rearrange_updated_items s.store.docItems),
        (s.store.sessions.map SessionRecord.total_co2).sum⟩] ∧
    ∀ p ∈ (logout u s).store.docItems, p.count = 0 := by
  rw [logout, if_pos (by simpa [calculate_total] using h)]
  refine ⟨rfl, ?_, ?_⟩
  · simp [clearSessions, resetCounts, logOut, calculate_total]
  · intro p hp
    simp only [clearSessions, resetCounts, logOut, List.mem_map] at hp
    rcases hp with ⟨q, hq, hpq⟩
    rw [← hpq]

theorem C4_witness :
    0 < committedState.store.sessions.length ∧
    ((logout "alice" committedState).store.sessions = [] ∧
     (logout "alice" committedState).store.archive = committedState.store.archive ++
       [⟨"alice", committedState.store.sessions.length,
         sort_updated_items (rearrange_updated_items committedState.store.docItems),
         (committedState.store.sessions.map SessionRecord.total_co2).sum⟩] ∧
     ∀ p ∈ (logout "alice" committedState).store.docItems, p.count = 0) :=
  ⟨by with_unfolding_all decide,
   C4_logout_archives_and_clears committedState "alice" (by with_unfolding_all decide)⟩

/-- C5: logging out with an empty Session Ledger changes nothing in the
modelled state — no archive write, persisted items untouched, no
session deletion (the cleared identity cookie lives outside the
modelled state). -/
theorem C5_logout_empty_ledger_noop (s : AppState) (u : String)
    (h : s.store.sessions = []) : logout u s = s := by
  rw [logout, if_neg]
  simp [calculate_total, h]

theorem C5_witness :
    bootState.store.sessions = [] ∧ logout "alice" bootState = bootState :=
  ⟨rfl, C5_logout_empty_ledger_noop bootState "alice" rfl⟩

/-- C9: the commit handler reads the module-level `total_co2`, which
only GET `/main` assigns (increment/decrement requests never do); a
commit issued while it was never assigned performs all per-item
persistence writes and then fails with the undefined-name error, so the
in-memory reset does not occur. -/
theorem C9_commit_before_first_get_main (s : AppState)
    (h : s.totalCo2Global = none) :
    renew none s = (.error CommitError.nameError,
      { s with store := applyWrites (eligPairs s.items) s.store }) ∧
    (getMain s).totalCo2Global = some (grandTotal s.items) ∧
    ∀ a nm, (postMain a nm s).totalCo2Global = none :=
  ⟨renew_none_nameError s h, rfl, fun _ _ => h⟩

theorem C9_witness :
    preGetState.totalCo2Global = none ∧
    (renew none preGetState = (.error CommitError.nameError,
      { preGetState with
        store := applyWrites (eligPairs preGetState.items) preGetState.store }) ∧
     (getMain preGetState).totalCo2Global = some (grandTotal preGetState.items) ∧
     ∀ a nm, (postMain a nm preGetState).totalCo2Global = none) :=
  ⟨rfl, C9_commit_before_first_get_main preGetState rfl⟩

end CO2App
